import Mathlib

/-!
# Verification model of `go_streaming_app/cmd/api/main.go`

A shallow embedding of the three HTTP handlers of the streaming server
(`uploadVideoHandler`, `getAllVideosMetadataHandler`, `streamVideoHandler`)
together with the pieces of the Go standard library they call.

Conventions of the embedding

* Go `string` values are Lean `String`s.  Every byte the handlers inspect
  (`=`, `-`, `.`, `/`, the decimal digits, `+`) is ASCII, so splitting and
  scanning by character coincides with Go's byte-wise behaviour on valid UTF-8.
* `int64` values are `Int`; the only producers are `strconv.ParseInt`, which
  clamps to the 64-bit range, and `fileInfo.Size()`.
* The directory `./videos` is explicit state (`FS`); handlers return the new
  state next to the response.  Paths are Unix paths.
* A response is what the handler itself produced: the status, the header map
  as it stood when `WriteHeader` ran, and the sequence of body writes.  Headers
  that `net/http` adds on its own account (`Date`, the length framing) are not
  part of it.
* A Go runtime panic (index out of range) is the outcome `none`: `net/http`
  recovers it and closes the connection without writing a response.
* `file.Seek` fails for the offsets `lseek` rejects: negative ones and those
  above the largest offset of the filesystem, a parameter of the handler.
* Failures of the environment that do not depend on the request (permissions,
  a full disk, a failing `Stat` on an open handle) are not modelled.
* `uuid.New().String()` is an input of the handler that draws it.
-/

namespace StreamingApp

/-! ## Go standard library: `strings`, `strconv`, `path/filepath`, `fmt` -/

/-- The pieces of `strings.Split(s, sep)` for a one-byte separator, on the
characters of `s`.  There is always at least one piece. -/
def splitChars (sep : Char) : List Char → List (List Char)
  | [] => [[]]
  | c :: cs =>
    if c = sep then [] :: splitChars sep cs
    else
      match splitChars sep cs with
      | [] => [[c]]
      | p :: ps => (c :: p) :: ps

/-- Go `strings.Split(s, sep)` with `sep` a single ASCII character. -/
def stringsSplit (s : String) (sep : Char) : List String :=
  (splitChars sep s.toList).map String.mk

/-- The two sentinel errors of `strconv.NumError`. -/
inductive NumError where
  | errSyntax
  | errRange
  deriving DecidableEq, Repr

/-- The value of a base-10 digit in `strconv.ParseUint`; `none` is the
`default:` branch (and the `d >= base` branch for letters). -/
def digitOf (c : Char) : Option Nat :=
  if '0' ≤ c ∧ c ≤ '9' then some (c.toNat - '0'.toNat) else none

/-- The constant `maxUint64` of `strconv`. -/
def maxUint64 : Nat := 2 ^ 64 - 1

/-- The loop of `strconv.ParseUint(s, 10, 64)`: `cutoff = maxUint64/10 + 1`,
`maxVal = 1<<64 - 1`; `n1` is computed in `uint64` arithmetic. -/
def parseUintLoop : List Char → Nat → Nat × Option NumError
  | [], n => (n, none)
  | c :: cs, n =>
    match digitOf c with
    | none => (0, some NumError.errSyntax)
    | some d =>
      if n ≥ maxUint64 / 10 + 1 then (maxUint64, some NumError.errRange)
      else
        let n10 := n * 10
        let n1 := (n10 + d) % 2 ^ 64
        if n1 < n10 ∨ n1 > maxUint64 then (maxUint64, some NumError.errRange)
        else parseUintLoop cs n1

/-- Go `strconv.ParseUint(s, 10, 64)`. -/
def parseUint (s : List Char) : Nat × Option NumError :=
  if s = [] then (0, some NumError.errSyntax) else parseUintLoop s 0

/-- Go `strconv.ParseInt(s, 10, 64)`: value and error.  A syntax error gives
`0`, a range error gives the nearest bound of `int64`. -/
def parseInt (s : String) : Int × Option NumError :=
  match s.toList with
  | [] => (0, some NumError.errSyntax)
  | c :: cs =>
    let neg := decide (c = '-')
    let digits := if c = '+' ∨ c = '-' then cs else c :: cs
    match parseUint digits with
    | (_, some NumError.errSyntax) => (0, some NumError.errSyntax)
    | (un, _) =>
      if neg = false ∧ un ≥ 2 ^ 63 then (2 ^ 63 - 1, some NumError.errRange)
      else if neg = true ∧ un > 2 ^ 63 then (-(2 ^ 63), some NumError.errRange)
      else (if neg then -(un : Int) else (un : Int), none)

/-- The backward scan of `filepath.Ext`: `rev` is the not yet visited part of
the path, last byte first; `acc` is the suffix already passed. -/
def extScan : List Char → List Char → List Char
  | [], _ => []
  | c :: rev, acc =>
    if c = '/' then []
    else if c = '.' then c :: acc
    else extScan rev (c :: acc)

/-- Go `filepath.Ext(path)`: the suffix beginning at the final dot of the final
path element, empty if there is none. -/
def filepathExt (path : String) : String :=
  String.mk (extScan path.toList.reverse [])

/-- Go `unicode.ToLower` on one rune: ASCII is handled in code, every other
rune through the Unicode case tables, which are the parameter `table`. -/
def lowerRune (table : Char → Char) (c : Char) : Char :=
  if c.toNat < 128 then c.toLower else table c

/-- Go `strings.ToLower(s)`. -/
def stringsToLower (table : Char → Char) (s : String) : String :=
  String.mk (s.toList.map (lowerRune table))

/-- The verb `%d` of `fmt.Sprintf` on an `int64`. -/
def formatInt (i : Int) : String := toString i

/-! ## Data model -/

abbrev Byte := UInt8

/-- Video represents the video metadata. -/
structure Video where
  ID : String
  Name : String
  URL : String
  deriving DecidableEq, Repr

/-- What a name in `./videos` refers to: a regular file with its bytes, or a
subdirectory with the size `Stat` reports for it. -/
inductive Node where
  | file (data : List Byte)
  | dir (statSize : Nat)
  deriving DecidableEq, Repr

/-- One entry of the directory `./videos`. -/
structure DirEntry where
  name : String
  node : Node
  deriving DecidableEq, Repr

/-- The method `IsDir` of `fs.DirEntry`. -/
def DirEntry.isDir (e : DirEntry) : Bool :=
  match e.node with
  | Node.file _ => false
  | Node.dir _ => true

/-- The state of the storage: `none` while `./videos` does not exist, else its
entries in the order `os.ReadDir` reports them (sorted by filename). -/
abbrev FS := Option (List DirEntry)

/-- Size reported by `file.Stat()`. -/
def Node.size : Node → Nat
  | Node.file data => data.length
  | Node.dir statSize => statSize

/-- The bytes `Read` delivers from offset 0; reading a directory fails at once. -/
def Node.content : Node → List Byte
  | Node.file data => data
  | Node.dir _ => []

/-- Go `os.Open(filepath.Join("./videos", filename))`.  The router only binds
`filename` to one non-empty path segment other than `.` and `..`, so the
lookup is by entry name. -/
def osOpen (fs : FS) (filename : String) : Option Node :=
  match fs with
  | none => none
  | some entries => (entries.find? (fun e => e.name == filename)).map DirEntry.node

/-- Go `os.ReadDir("./videos")`. -/
def osReadDir (fs : FS) : Option (List DirEntry) := fs

/-- Put a regular file with bytes `data` under `name`: an existing regular file
is replaced in place, a new name is inserted at its sorted position, and a
name held by a subdirectory makes `os.Create` fail (`none`). -/
def storeFile (name : String) (data : List Byte) : List DirEntry → Option (List DirEntry)
  | [] => some [DirEntry.mk name (Node.file data)]
  | e :: es =>
    if e.name = name then
      match e.node with
      | Node.file _ => some (DirEntry.mk name (Node.file data) :: es)
      | Node.dir _ => none
    else if name < e.name then some (DirEntry.mk name (Node.file data) :: e :: es)
    else (storeFile name data es).map (fun r => e :: r)

/-! ## `http.ResponseWriter` -/

/-- One write to the response body. -/
inductive Chunk where
  | raw (data : List Byte)
  | line (msg : String)
  | video (v : Video)
  | videos (vs : List Video)
  deriving DecidableEq, Repr

/-- The response writer while the handler runs: the live header map, the status
once `WriteHeader` has run, the header snapshot taken at that moment, and the
body written so far. -/
structure ResponseWriter where
  header : List (String × String)
  status : Option Nat
  sent : List (String × String)
  body : List Chunk
  deriving DecidableEq, Repr

/-- What the client receives. -/
structure Response where
  status : Nat
  header : List (String × String)
  body : List Chunk
  deriving DecidableEq, Repr

/-- `http.Header.Set` on a map kept as an association list. -/
def headerSet (h : List (String × String)) (k v : String) : List (String × String) :=
  if h.any (fun p => p.1 == k) then h.map (fun p => if p.1 == k then (k, v) else p)
  else h ++ [(k, v)]

/-- `http.Header.Get`, with `none` for an absent key. -/
def headerGet (h : List (String × String)) (k : String) : Option String :=
  (h.find? (fun p => p.1 == k)).map Prod.snd

def ResponseWriter.new : ResponseWriter :=
  { header := [], status := none, sent := [], body := [] }

/-- `w.Header().Set(k, v)`. -/
def ResponseWriter.set (w : ResponseWriter) (k v : String) : ResponseWriter :=
  { w with header := headerSet w.header k v }

/-- `w.WriteHeader(code)`: the first call fixes the status and the headers; a
later call is ignored. -/
def ResponseWriter.writeHeader (w : ResponseWriter) (code : Nat) : ResponseWriter :=
  match w.status with
  | some _ => w
  | none => { w with status := some code, sent := w.header }

/-- `w.Write`: writes an implicit `WriteHeader(200)` first if none was sent. -/
def ResponseWriter.write (w : ResponseWriter) (c : Chunk) : ResponseWriter :=
  let w1 := w.writeHeader 200
  { w1 with body := w1.body ++ [c] }

/-- The response once the handler has returned. -/
def ResponseWriter.finish (w : ResponseWriter) : Response :=
  let w1 := w.writeHeader 200
  { status := w1.status.getD 200, header := w1.sent, body := w1.body }

/-- Go `http.Error(w, msg, code)`. -/
def httpError (w : ResponseWriter) (msg : String) (code : Nat) : ResponseWriter :=
  let w1 := w.set "Content-Type" "text/plain; charset=utf-8"
  let w2 := w1.set "X-Content-Type-Options" "nosniff"
  (w2.writeHeader code).write (Chunk.line msg)

/-! ## The handlers -/

/-- Source lines 26-37. -/
def isVideoFileType (table : Char → Char) (filename : String) : Bool :=
  let videoFormats := [".mp4", ".avi"]
  let ext := stringsToLower table (filepathExt filename)
  videoFormats.any (fun format => ext == format)

/-- The multipart request as `uploadVideoHandler` sees it. -/
inductive UploadRequest where
  | badForm
  | noFile
  | file (filename : String) (content : List Byte)
  deriving DecidableEq, Repr

/-- The copy loop of source lines 86-104 with its 8192-byte buffer: `src` is
what the uploaded file still holds, `out` what the output file holds.  Every
round with data moves at least one byte, so `src.length + 1` rounds reach the
end of the file. -/
def copyLoop : Nat → List Byte → List Byte → List Byte
  | 0, _, out => out
  | fuel + 1, src, out =>
    let n := min 8192 src.length
    if n = 0 then out
    else copyLoop fuel (src.drop n) (out ++ src.take n)

/-- Source lines 41-117; `videoID` is the value of `uuid.New().String()`. -/
def uploadVideoHandler (fs : FS) (videoID : String) (req : UploadRequest) : Response × FS :=
  let w := ResponseWriter.new
  match req with
  | UploadRequest.badForm => ((httpError w "Unable to parse form" 400).finish, fs)
  | UploadRequest.noFile => ((httpError w "Error retrieving the file" 400).finish, fs)
  | UploadRequest.file filename content =>
    if content.length > 200 * 1000000 then
      ((httpError w "Invalid file size. Only 10MB files are allowed." 400).finish, fs)
    else
      let videoFilename := videoID ++ filepathExt filename
      let entries := match fs with
        | none => []
        | some es => es
      match storeFile videoFilename [] entries with
      | none => ((httpError w "Error saving the file" 500).finish, some entries)
      | some _ =>
        let written := copyLoop (content.length + 1) content []
        let fs1 := storeFile videoFilename written entries
        let video := Video.mk videoID filename ""
        let w1 := w.writeHeader 201
        let w2 := w1.set "Content-Type" "application/json"
        ((w2.write (Chunk.video video)).finish, fs1)

/-- The loop of source lines 129-139; `ids n` is the identifier drawn for the
record appended when `n` records are already in the slice. -/
def listVideos (table : Char → Char) (ids : Nat → String) (files : List DirEntry) : List Video :=
  files.foldl
    (fun videos file =>
      if !file.isDir && isVideoFileType table file.name then
        videos ++ [Video.mk (ids videos.length) file.name
          ("http://localhost:8080/videos/" ++ file.name)]
      else videos)
    []

/-- Source lines 119-144. -/
def getAllVideosMetadataHandler (table : Char → Char) (ids : Nat → String) (fs : FS) :
    Response × FS :=
  let w := ResponseWriter.new
  match osReadDir fs with
  | none => ((httpError w "Error reading video directory" 500).finish, fs)
  | some files =>
    let videos := listVideos table ids files
    let w1 := w.set "Content-Type" "application/json"
    ((w1.write (Chunk.videos videos)).finish, fs)

/-- Whether `file.Seek(start, io.SeekStart)` returns an error.  The underlying
`lseek` rejects a negative offset and an offset above the largest one the
filesystem supports for the file, `maxOffset` (2^44 - 4096 on ext4 with 4 KiB
blocks).  No file is larger than that bound, so an offset within the size of
the file is always accepted. -/
def seekFails (maxOffset : Nat) (fileSize start : Int) : Bool :=
  decide (start < 0 ∨ start > max (maxOffset : Int) fileSize)

/-- The range branch of `streamVideoHandler`, source lines 174-202, up to and
including the seek: the writer and the offset to copy from (`none` after a
failed seek), or `none` for a panic. -/
def rangeBranch (maxOffset : Nat) (w : ResponseWriter) (rangeHeader : String)
    (fileSize : Int) : Option (ResponseWriter × Option Int) := do
  let w1 := w.set "Accept-Ranges" "bytes"
  let rangeValue ← (stringsSplit rangeHeader '=').get? 1
  let byteRange := stringsSplit rangeValue '-'
  let first ← byteRange.get? 0
  let start := (parseInt first).1
  let second ← byteRange.get? 1
  let stop := if second ≠ "" then (parseInt second).1 else fileSize - 1
  let contentRange :=
    "bytes " ++ formatInt start ++ "-" ++ formatInt stop ++ "/" ++ formatInt fileSize
  let w2 := w1.set "Content-Range" contentRange
  let w3 := w2.writeHeader 206
  if seekFails maxOffset fileSize start then
    pure (httpError w3 "Error seeking video file" 500, none)
  else
    pure (w3, some start)

/-- Source lines 146-206; `rangeHeader` is `r.Header.Get("Range")`, empty when
the request has no such header, and `maxOffset` is the largest offset the
filesystem lets `Seek` move to.  `none` is a panic. -/
def streamVideoHandler (maxOffset : Nat) (fs : FS) (filename rangeHeader : String) :
    Option Response × FS :=
  let w := ResponseWriter.new
  match osOpen fs filename with
  | none => (some (httpError w "Video not found" 404).finish, fs)
  | some file =>
    let fileSize : Int := file.size
    let w1 := w.set "Content-Type" "video/mp4"
    if rangeHeader ≠ "" then
      match rangeBranch maxOffset w1 rangeHeader fileSize with
      | none => (none, fs)
      | some (w2, none) => (some w2.finish, fs)
      | some (w2, some start) =>
        (some (w2.write (Chunk.raw (file.content.drop start.toNat))).finish, fs)
    else
      (some (w1.write (Chunk.raw file.content)).finish, fs)

/-! ## Auxiliary and specification-side definitions -/

/-- The characters `0` to `9`. -/
@[reducible]
def IsDigit (c : Char) : Prop := '0' ≤ c ∧ c ≤ '9'

/-- The number a digit string denotes, continuing from `acc`. -/
def digitsValue (acc : Nat) (ds : List Char) : Nat :=
  ds.foldl (fun a c => a * 10 + (c.toNat - '0'.toNat)) acc

/-- The headers of a partial response. -/
def rangeHeaders (contentRange : String) : List (String × String) :=
  [("Content-Type", "video/mp4"), ("Accept-Ranges", "bytes"), ("Content-Range", contentRange)]

/-- The directory the upload works in: `./videos` is created when absent. -/
def entriesOf (fs : FS) : List DirEntry :=
  match fs with
  | none => []
  | some es => es

/-- Bytes `[s, e]` of a file, both ends included. -/
def byteSlice (data : List Byte) (s e : Nat) : List Byte :=
  (data.drop s).take (e + 1 - s)

/-- The suffix of a name that begins at its last dot, empty without a dot. -/
def lastDotSuffix : List Char → List Char
  | [] => []
  | c :: cs =>
    match lastDotSuffix cs with
    | [] => if c = '.' then c :: cs else []
    | d :: ds => d :: ds

/-- The extension in the words of the specification: the suffix from the last
dot. -/
def specExt (filename : String) : String := String.mk (lastDotSuffix filename.toList)

/-- The records the specification asks for: one per entry that is no directory
and whose lower-cased extension is `.mp4` or `.avi`. -/
def specIsVideo (table : Char → Char) (e : DirEntry) : Bool :=
  !e.isDir && decide (stringsToLower table (specExt e.name) ∈ [".mp4", ".avi"])

/-- A ten-byte file. -/
def sampleData : List Byte := [10, 11, 12, 13, 14, 15, 16, 17, 18, 19]

/-- A storage that holds the ten-byte file as `a.mp4`. -/
def sampleFS : FS := some [DirEntry.mk "a.mp4" (Node.file sampleData)]

/-- A file of 1000 bytes, byte `i` holding `i mod 256`. -/
def file1000 : List Byte := (List.range 1000).map UInt8.ofNat

/-- A storage that holds the 1000-byte file as `a.mp4`. -/
def fs1000 : FS := some [DirEntry.mk "a.mp4" (Node.file file1000)]

/-- An upload of exactly 200,000,000 bytes. -/
def fileAtLimit : List Byte := List.replicate 200000000 0

/-- An upload of 200,000,001 bytes. -/
def fileOverLimit : List Byte := List.replicate 200000001 0

/-- The largest file offset of ext4 with 4 KiB blocks, 2^44 - 4096. -/
def ext4MaxOffset : Nat := 17592186040320

/-- A sample value of `uuid.New().String()`. -/
def sampleID : String := "123e4567-e89b-42d3-a456-426614174000"

/-! ## Sanity checks on concrete inputs -/

theorem check_split_eq : stringsSplit "bytes=0-10,20-30" '=' = ["bytes", "0-10,20-30"] := by decide

theorem check_split_dash : stringsSplit "0-10,20-30" '-' = ["0", "10,20", "30"] := by decide

theorem check_split_empty : stringsSplit "" '=' = [""] := by decide

theorem check_parse_500 : parseInt "500" = (500, none) := by decide

theorem check_parse_neg : parseInt "-7" = (-7, none) := by decide

theorem check_parse_abc : parseInt "abc" = (0, some NumError.errSyntax) := by decide

theorem check_parse_overflow : parseInt "99999999999999999999" = (2 ^ 63 - 1, some NumError.errRange) := by decide

theorem check_parse_max : parseInt "9223372036854775807" = (2 ^ 63 - 1, none) := by decide

theorem check_parse_max_succ : parseInt "9223372036854775808" = (2 ^ 63 - 1, some NumError.errRange) := by decide

theorem check_ext_upper : filepathExt "movie.tar.MP4" = ".MP4" := by decide

theorem check_ext_dir : filepathExt "a.b/c" = "" := by decide

theorem check_video_avi : isVideoFileType id "clip.AVI" = true := by decide

theorem check_video_txt : isVideoFileType id "notes.txt" = false := by decide

theorem check_stream_2_5 : (streamVideoHandler ext4MaxOffset sampleFS "a.mp4" "bytes=2-5").1 =
    some { status := 206,
           header := [("Content-Type", "video/mp4"), ("Accept-Ranges", "bytes"),
                      ("Content-Range", "bytes 2-5/10")],
           body := [Chunk.raw [12, 13, 14, 15, 16, 17, 18, 19]] } := by decide

/-! ## Lemmas on `strings.Split` -/

theorem splitChars_ne_nil (sep : Char) (s : List Char) : splitChars sep s ≠ [] := by
  induction s with
  | nil => simp [splitChars]
  | cons c cs ih =>
    unfold splitChars
    split
    · simp
    · split
      · simp
      · simp

theorem splitChars_of_not_mem (sep : Char) (s : List Char) (h : sep ∉ s) :
    splitChars sep s = [s] := by
  induction s with
  | nil => simp [splitChars]
  | cons c cs ih =>
    have hc : c ≠ sep := fun e => h (by simp [e])
    have hcs : sep ∉ cs := fun m => h (List.mem_cons_of_mem _ m)
    unfold splitChars
    rw [if_neg hc, ih hcs]

theorem splitChars_append_sep (sep : Char) (s rest : List Char) (h : sep ∉ s) :
    splitChars sep (s ++ sep :: rest) = s :: splitChars sep rest := by
  induction s with
  | nil => simp [splitChars]
  | cons c cs ih =>
    have hc : c ≠ sep := fun e => h (by simp [e])
    have hcs : sep ∉ cs := fun m => h (List.mem_cons_of_mem _ m)
    have e : splitChars sep (c :: (cs ++ sep :: rest)) =
        match splitChars sep (cs ++ sep :: rest) with
        | [] => [[c]]
        | p :: ps => (c :: p) :: ps := by
      rw [splitChars, if_neg hc]
    rw [List.cons_append, e, ih hcs]

theorem not_mem_of_mem_splitChars (sep : Char) (s p : List Char)
    (hp : p ∈ splitChars sep s) : sep ∉ p := by
  induction s generalizing p with
  | nil =>
    simp [splitChars] at hp
    simp [hp]
  | cons c cs ih =>
    unfold splitChars at hp
    by_cases hc : c = sep
    · rw [if_pos hc] at hp
      rcases List.mem_cons.mp hp with h | h
      · simp [h]
      · exact ih p h
    · rw [if_neg hc] at hp
      cases hsp : splitChars sep cs with
      | nil => exact absurd hsp (splitChars_ne_nil sep cs)
      | cons q qs =>
        rw [hsp] at hp
        rw [hsp] at ih
        rcases List.mem_cons.mp hp with h | h
        · subst h
          have hq : sep ∉ q := ih q (List.mem_cons_self _ _)
          intro hm
          rcases List.mem_cons.mp hm with e | e
          · exact hc e.symm
          · exact hq e
        · exact ih p (List.mem_cons_of_mem _ h)

/-! ## Lemmas on decimal numerals -/

theorem isDigit_toNat {c : Char} (h : IsDigit c) : 48 ≤ c.toNat ∧ c.toNat ≤ 57 := by
  obtain ⟨h0, h9⟩ := h
  have h0' : ('0' : Char).toNat ≤ c.toNat := h0
  have h9' : c.toNat ≤ ('9' : Char).toNat := h9
  exact ⟨h0', h9'⟩

theorem digitOf_of_isDigit {c : Char} (h : IsDigit c) :
    digitOf c = some (c.toNat - '0'.toNat) := by
  exact if_pos h

theorem isDigit_digitChar (d : Nat) (h : d < 10) :
    IsDigit (Nat.digitChar d) ∧ (Nat.digitChar d).toNat - '0'.toNat = d := by
  interval_cases d <;> exact ⟨by decide, by decide⟩

theorem digitsValue_ge (ds : List Char) (acc : Nat) : acc ≤ digitsValue acc ds := by
  induction ds generalizing acc with
  | nil => simp [digitsValue]
  | cons c cs ih =>
    have h := ih (acc * 10 + (c.toNat - '0'.toNat))
    simp only [digitsValue, List.foldl_cons] at h ⊢
    omega

theorem parseUintLoop_digits (ds : List Char) (acc : Nat)
    (hd : ∀ c ∈ ds, IsDigit c) (hv : digitsValue acc ds < 2 ^ 64) :
    parseUintLoop ds acc = (digitsValue acc ds, none) := by
  induction ds generalizing acc with
  | nil => simp [parseUintLoop, digitsValue]
  | cons c cs ih =>
    have hc : IsDigit c := hd c (List.mem_cons_self _ _)
    have hcs : ∀ x ∈ cs, IsDigit x := fun x hx => hd x (List.mem_cons_of_mem _ hx)
    have hstep : digitsValue acc (c :: cs) =
        digitsValue (acc * 10 + (c.toNat - '0'.toNat)) cs := by
      simp [digitsValue]
    rw [hstep] at hv ⊢
    have hge := digitsValue_ge cs (acc * 10 + (c.toNat - '0'.toNat))
    have hlt : acc * 10 + (c.toNat - '0'.toNat) < 2 ^ 64 := lt_of_le_of_lt hge hv
    have hmod : (acc * 10 + (c.toNat - '0'.toNat)) % 2 ^ 64 =
        acc * 10 + (c.toNat - '0'.toNat) := Nat.mod_eq_of_lt hlt
    have hcut : ¬ acc ≥ maxUint64 / 10 + 1 := by
      unfold maxUint64
      norm_num at hlt ⊢
      omega
    have hwrap : ¬ (acc * 10 + (c.toNat - '0'.toNat) < acc * 10 ∨
        acc * 10 + (c.toNat - '0'.toNat) > maxUint64) := by
      unfold maxUint64
      norm_num at hlt ⊢
      omega
    rw [parseUintLoop, digitOf_of_isDigit hc]
    simp only [hmod]
    rw [if_neg hcut, if_neg hwrap]
    exact ih _ hcs hv

theorem toDigitsCore_spec (fuel n : Nat) (ds : List Char) (h : n < fuel) :
    ∃ pre, Nat.toDigitsCore 10 fuel n ds = pre ++ ds ∧ pre ≠ [] ∧
      (∀ c ∈ pre, IsDigit c) ∧ digitsValue 0 pre = n := by
  induction fuel generalizing n ds with
  | zero => omega
  | succ fuel ih =>
    have hd := isDigit_digitChar (n % 10) (Nat.mod_lt _ (by norm_num))
    rw [Nat.toDigitsCore]
    by_cases h0 : n / 10 = 0
    · simp only [h0, if_true]
      refine ⟨[Nat.digitChar (n % 10)], by simp, by simp, ?_, ?_⟩
      · intro c hc
        rw [List.mem_singleton] at hc
        rw [hc]
        exact hd.1
      · simp only [digitsValue, List.foldl_cons, List.foldl_nil]
        rw [hd.2]
        omega
    · simp only [h0, if_false]
      have hlt : n / 10 < fuel := by omega
      obtain ⟨pre, he, _, hdig, hval⟩ := ih (n / 10) (Nat.digitChar (n % 10) :: ds) hlt
      refine ⟨pre ++ [Nat.digitChar (n % 10)], by simp [he], by simp, ?_, ?_⟩
      · intro c hc
        rcases List.mem_append.mp hc with hc | hc
        · exact hdig c hc
        · rw [List.mem_singleton] at hc
          rw [hc]
          exact hd.1
      · have hv : digitsValue 0 (pre ++ [Nat.digitChar (n % 10)]) =
            digitsValue 0 pre * 10 + ((Nat.digitChar (n % 10)).toNat - '0'.toNat) := by
          simp [digitsValue, List.foldl_append]
        rw [hv, hval, hd.2]
        omega

/-- The decimal numeral of a natural number: non-empty, digits only, and it
denotes the number. -/
theorem toString_nat_spec (n : Nat) :
    (toString n).toList ≠ [] ∧ (∀ c ∈ (toString n).toList, IsDigit c) ∧
      digitsValue 0 (toString n).toList = n := by
  obtain ⟨pre, he, hne, hdig, hval⟩ := toDigitsCore_spec (n + 1) n [] (Nat.lt_succ_self n)
  have e : (toString n).toList = pre := by
    show (Nat.repr n).toList = pre
    simp [Nat.repr, Nat.toDigits, he, List.asString]
  rw [e]
  exact ⟨hne, hdig, hval⟩

theorem isDigit_ne {c : Char} (h : IsDigit c) : c ≠ '=' ∧ c ≠ '-' ∧ c ≠ '+' := by
  have hn := isDigit_toNat h
  refine ⟨?_, ?_, ?_⟩ <;> intro e <;> rw [e] at hn <;> revert hn <;> decide

theorem parseInt_toString (n : Nat) (h : n < 2 ^ 63) :
    parseInt (toString n) = ((n : Int), none) := by
  obtain ⟨hne, hdig, hval⟩ := toString_nat_spec n
  unfold parseInt
  cases hl : (toString n).toList with
  | nil => exact absurd hl hne
  | cons c cs =>
    rw [hl] at hdig hval
    have hc := isDigit_ne (hdig c (List.mem_cons_self _ _))
    have hsign : ¬ (c = '+' ∨ c = '-') := by
      rintro (e | e)
      · exact hc.2.2 e
      · exact hc.2.1 e
    have hu : parseUint (c :: cs) = (n, none) := by
      unfold parseUint
      rw [if_neg (List.cons_ne_nil _ _), parseUintLoop_digits _ _ hdig, hval]
      rw [hval]
      exact lt_trans h (by norm_num)
    simp only [if_neg hsign, hu, decide_eq_false hc.2.1]
    have h1 : ¬ n ≥ 2 ^ 63 := not_le.mpr h
    have h2 : n < 9223372036854775808 := by
      norm_num at h
      exact h
    simp [h1, h2]

theorem parseInt_nonneg (s : String) (h : '-' ∉ s.toList) : 0 ≤ (parseInt s).1 := by
  unfold parseInt
  cases hl : s.toList with
  | nil => simp
  | cons c cs =>
    have hc : c ≠ '-' := by
      intro e
      apply h
      rw [hl, e]
      exact List.mem_cons_self _ _
    simp only [decide_eq_false hc]
    split
    · simp
    · split
      · norm_num
      · simp

/-! ## Lemmas on the handlers -/

theorem rangeWriter_eq (v : String) :
    ((((ResponseWriter.new.set "Content-Type" "video/mp4").set "Accept-Ranges" "bytes").set
      "Content-Range" v).writeHeader 206) =
      { header := rangeHeaders v, status := some 206, sent := rangeHeaders v, body := [] } := by
  rfl

theorem piece_no_dash (rv p : String) (hp : p ∈ stringsSplit rv '-') : '-' ∉ p.toList := by
  unfold stringsSplit at hp
  obtain ⟨q, hq, rfl⟩ := List.mem_map.mp hp
  exact not_mem_of_mem_splitChars '-' rv.toList q hq

theorem seekFails_of_le (maxOffset : Nat) (fileSize start : Int)
    (h0 : 0 ≤ start) (h1 : start ≤ max (maxOffset : Int) fileSize) :
    seekFails maxOffset fileSize start = false := by
  unfold seekFails
  rw [decide_eq_false_iff_not]
  omega

theorem seekFails_of_gt (maxOffset : Nat) (fileSize start : Int)
    (h1 : max (maxOffset : Int) fileSize < start) :
    seekFails maxOffset fileSize start = true := by
  unfold seekFails
  rw [decide_eq_true_iff]
  exact Or.inr h1

/-- A failed seek after `WriteHeader(206)`: the status and the headers already
sent stay, and `http.Error` only adds its line to the body. -/
theorem seekError_finish (v : String) :
    (httpError { header := rangeHeaders v, status := some 206, sent := rangeHeaders v,
                 body := [] } "Error seeking video file" 500).finish =
      { status := 206, header := rangeHeaders v,
        body := [Chunk.line "Error seeking video file"] } := by
  rfl

/-- The range branch on any header that has both delimiters: status 206, the
three headers, and the offset parsed from the first piece unless the seek to
it fails. -/
theorem rangeBranch_eq (maxOffset : Nat) (h rv p0 p1 : String) (rest : List String)
    (fileSize : Int)
    (hrv : (stringsSplit h '=').get? 1 = some rv)
    (hbr : stringsSplit rv '-' = p0 :: p1 :: rest) :
    rangeBranch maxOffset (ResponseWriter.new.set "Content-Type" "video/mp4") h fileSize =
      if seekFails maxOffset fileSize (parseInt p0).1 then
        some (httpError
          { header := rangeHeaders ("bytes " ++ formatInt (parseInt p0).1 ++ "-" ++
              formatInt (if p1 ≠ "" then (parseInt p1).1 else fileSize - 1) ++ "/" ++
              formatInt fileSize),
            status := some 206,
            sent := rangeHeaders ("bytes " ++ formatInt (parseInt p0).1 ++ "-" ++
              formatInt (if p1 ≠ "" then (parseInt p1).1 else fileSize - 1) ++ "/" ++
              formatInt fileSize),
            body := [] } "Error seeking video file" 500, none)
      else
        some ({ header := rangeHeaders ("bytes " ++ formatInt (parseInt p0).1 ++ "-" ++
                  formatInt (if p1 ≠ "" then (parseInt p1).1 else fileSize - 1) ++ "/" ++
                  formatInt fileSize),
                status := some 206,
                sent := rangeHeaders ("bytes " ++ formatInt (parseInt p0).1 ++ "-" ++
                  formatInt (if p1 ≠ "" then (parseInt p1).1 else fileSize - 1) ++ "/" ++
                  formatInt fileSize),
                body := [] }, some (parseInt p0).1) := by
  unfold rangeBranch
  simp only [hrv, hbr, Option.bind_eq_bind, Option.some_bind, List.get?_cons_zero,
    List.get?_cons_succ, rangeWriter_eq, Option.pure_def]

/-- The whole handler on a stored regular file and a header with both
delimiters. -/
theorem stream_range_eq (maxOffset : Nat) (fs : FS) (filename h rv p0 p1 : String)
    (rest : List String) (data : List Byte)
    (hopen : osOpen fs filename = some (Node.file data))
    (hh : h ≠ "")
    (hrv : (stringsSplit h '=').get? 1 = some rv)
    (hbr : stringsSplit rv '-' = p0 :: p1 :: rest) :
    streamVideoHandler maxOffset fs filename h =
      (some { status := 206,
              header := rangeHeaders ("bytes " ++ formatInt (parseInt p0).1 ++ "-" ++
                formatInt (if p1 ≠ "" then (parseInt p1).1 else (data.length : Int) - 1) ++
                "/" ++ formatInt (data.length : Int)),
              body :=
                if seekFails maxOffset (data.length : Int) (parseInt p0).1 then
                  [Chunk.line "Error seeking video file"]
                else [Chunk.raw (data.drop (parseInt p0).1.toNat)] }, fs) := by
  unfold streamVideoHandler
  simp only [hopen, if_pos hh, Node.size, Node.content]
  rw [rangeBranch_eq maxOffset h rv p0 p1 rest _ hrv hbr]
  cases seekFails maxOffset (data.length : Int) (parseInt p0).1
  · rfl
  · simp only [if_true, seekError_finish]

theorem toString_nat_no_sep (n : Nat) :
    '=' ∉ (toString n).toList ∧ '-' ∉ (toString n).toList := by
  obtain ⟨_, hdig, _⟩ := toString_nat_spec n
  constructor
  · intro hm
    exact (isDigit_ne (hdig _ hm)).1 rfl
  · intro hm
    exact (isDigit_ne (hdig _ hm)).2.1 rfl

theorem toString_nat_ne_empty (n : Nat) : toString n ≠ "" := by
  intro e
  apply (toString_nat_spec n).1
  rw [e]
  rfl

theorem bytes_eq_append_ne_empty (v : String) : "bytes=" ++ v ≠ "" := by
  intro h
  have h1 := congrArg String.length h
  rw [String.length_append] at h1
  have h2 : "bytes=".length = 6 := by decide
  have h3 : "".length = 0 := by decide
  omega

theorem formatInt_natCast (n : Nat) : formatInt (n : Int) = toString n := rfl

/-- Splitting `bytes=v` on `=` when `v` has no `=`. -/
theorem split_bytes_eq (v : String) (hv : '=' ∉ v.toList) :
    stringsSplit ("bytes=" ++ v) '=' = ["bytes", v] := by
  have e : ("bytes=" ++ v).toList = "bytes".toList ++ '=' :: v.toList := by
    show ("bytes=" ++ v).data = _
    rw [String.data_append]
    rfl
  unfold stringsSplit
  rw [e, splitChars_append_sep '=' _ _ (by decide), splitChars_of_not_mem '=' _ hv]
  rfl

/-- Splitting `a-b` on `-` when neither side has a `-`. -/
theorem split_dash (a b : String) (ha : '-' ∉ a.toList) (hb : '-' ∉ b.toList) :
    stringsSplit (a ++ "-" ++ b) '-' = [a, b] := by
  have e : (a ++ "-" ++ b).toList = a.toList ++ '-' :: b.toList := by
    show (a ++ "-" ++ b).data = _
    rw [String.data_append, String.data_append]
    simp [String.toList]
  unfold stringsSplit
  rw [e, splitChars_append_sep '-' _ _ ha, splitChars_of_not_mem '-' _ hb]
  rfl

/-- The handler on `bytes=<s>-<e>` with both numbers written in decimal. -/
theorem stream_closed_range (maxOffset : Nat) (fs : FS) (filename : String)
    (data : List Byte) (s e : Nat)
    (hopen : osOpen fs filename = some (Node.file data))
    (hs : s < 2 ^ 63) (he : e < 2 ^ 63) :
    streamVideoHandler maxOffset fs filename ("bytes=" ++ toString s ++ "-" ++ toString e) =
      (some { status := 206,
              header := rangeHeaders ("bytes " ++ toString s ++ "-" ++ toString e ++ "/" ++
                toString data.length),
              body :=
                if seekFails maxOffset (data.length : Int) (s : Int) then
                  [Chunk.line "Error seeking video file"]
                else [Chunk.raw (data.drop s)] }, fs) := by
  have hsep_s := toString_nat_no_sep s
  have hsep_e := toString_nat_no_sep e
  have hne : ("bytes=" ++ toString s ++ "-" ++ toString e) ≠ "" := by
    rw [String.append_assoc, String.append_assoc]
    exact bytes_eq_append_ne_empty _
  have hv : '=' ∉ (toString s ++ "-" ++ toString e).toList := by
    show '=' ∉ (toString s ++ "-" ++ toString e).data
    rw [String.data_append, String.data_append]
    simp only [List.mem_append, not_or]
    exact ⟨⟨hsep_s.1, by decide⟩, hsep_e.1⟩
  have hsplit : stringsSplit ("bytes=" ++ toString s ++ "-" ++ toString e) '=' =
      ["bytes", toString s ++ "-" ++ toString e] := by
    rw [String.append_assoc, String.append_assoc, ← String.append_assoc (toString s)]
    exact split_bytes_eq _ hv
  have h := stream_range_eq maxOffset fs filename _ (toString s ++ "-" ++ toString e)
    (toString s) (toString e) [] data hopen hne (by rw [hsplit]; rfl)
    (split_dash _ _ hsep_s.2 hsep_e.2)
  rw [h, if_pos (toString_nat_ne_empty e), parseInt_toString s hs, parseInt_toString e he]
  simp only [formatInt_natCast, Int.toNat_ofNat]

/-- The handler on `bytes=<s>-<e>` when the start lies within the file. -/
theorem stream_closed_range_inside (maxOffset : Nat) (fs : FS) (filename : String)
    (data : List Byte) (s e : Nat)
    (hopen : osOpen fs filename = some (Node.file data))
    (hs : s ≤ data.length) (hsize : data.length < 2 ^ 63) (he : e < 2 ^ 63) :
    streamVideoHandler maxOffset fs filename ("bytes=" ++ toString s ++ "-" ++ toString e) =
      (some { status := 206,
              header := rangeHeaders ("bytes " ++ toString s ++ "-" ++ toString e ++ "/" ++
                toString data.length),
              body := [Chunk.raw (data.drop s)] }, fs) := by
  rw [stream_closed_range maxOffset fs filename data s e hopen (by omega) he,
    seekFails_of_le maxOffset _ _ (by omega) (by omega)]
  rfl

/-- The handler on the open-ended header `bytes=<s>-`. -/
theorem stream_open_range (maxOffset : Nat) (fs : FS) (filename : String)
    (data : List Byte) (s : Nat)
    (hopen : osOpen fs filename = some (Node.file data))
    (hs : s ≤ data.length) (hsize : data.length < 2 ^ 63) (hlen : 1 ≤ data.length) :
    streamVideoHandler maxOffset fs filename ("bytes=" ++ toString s ++ "-") =
      (some { status := 206,
              header := rangeHeaders ("bytes " ++ toString s ++ "-" ++
                toString (data.length - 1) ++ "/" ++ toString data.length),
              body := [Chunk.raw (data.drop s)] }, fs) := by
  have hsep_s := toString_nat_no_sep s
  have hne : ("bytes=" ++ toString s ++ "-") ≠ "" := by
    rw [String.append_assoc]
    exact bytes_eq_append_ne_empty _
  have hv : '=' ∉ (toString s ++ "-").toList := by
    show '=' ∉ (toString s ++ "-").data
    rw [String.data_append]
    simp only [List.mem_append, not_or]
    exact ⟨hsep_s.1, by decide⟩
  have hsplit : stringsSplit ("bytes=" ++ toString s ++ "-") '=' =
      ["bytes", toString s ++ "-"] := by
    rw [String.append_assoc]
    exact split_bytes_eq _ hv
  have hdash : stringsSplit (toString s ++ "-") '-' = [toString s, ""] := by
    have := split_dash (toString s) "" hsep_s.2 (by decide)
    simpa using this
  have h := stream_range_eq maxOffset fs filename _ (toString s ++ "-") (toString s) "" []
    data hopen hne (by rw [hsplit]; rfl) hdash
  have hcast : (data.length : Int) - 1 = ((data.length - 1 : Nat) : Int) := by omega
  rw [h, if_neg (by simp), parseInt_toString s (by omega), hcast,
    seekFails_of_le maxOffset _ _ (by omega) (by omega)]
  simp only [formatInt_natCast, Int.toNat_ofNat]
  rfl

/-! ## Lemmas on the upload path -/

theorem copyLoop_eq (fuel : Nat) (src out : List Byte) (h : src.length < fuel) :
    copyLoop fuel src out = out ++ src := by
  induction fuel generalizing src out with
  | zero => omega
  | succ fuel ih =>
    unfold copyLoop
    by_cases h0 : min 8192 src.length = 0
    · have hnil : src = [] := by
        apply List.eq_nil_of_length_eq_zero
        omega
      simp [hnil]
    · simp only [h0, if_false]
      have hlen : (src.drop (min 8192 src.length)).length < fuel := by
        rw [List.length_drop]
        omega
      rw [ih _ _ hlen, List.append_assoc, List.take_append_drop]

theorem storeFile_find (name : String) (data : List Byte) (es es1 : List DirEntry)
    (h : storeFile name data es = some es1) :
    (es1.find? (fun e => e.name == name)).map DirEntry.node = some (Node.file data) := by
  induction es generalizing es1 with
  | nil =>
    simp only [storeFile, Option.some.injEq] at h
    subst h
    simp
  | cons e es ih =>
    unfold storeFile at h
    by_cases hn : e.name = name
    · rw [if_pos hn] at h
      cases hnode : e.node with
      | file d =>
        rw [hnode] at h
        simp only [Option.some.injEq] at h
        subst h
        simp
      | dir sz =>
        rw [hnode] at h
        exact absurd h (by simp)
    · rw [if_neg hn] at h
      by_cases hlt : name < e.name
      · rw [if_pos hlt] at h
        simp only [Option.some.injEq] at h
        subst h
        simp
      · rw [if_neg hlt] at h
        cases hr : storeFile name data es with
        | none =>
          rw [hr] at h
          exact absurd h (by simp)
        | some r =>
          rw [hr] at h
          simp only [Option.map_some', Option.some.injEq] at h
          subst h
          have hne : (e.name == name) = false := by simpa using hn
          rw [List.find?_cons, hne]
          exact ih r hr

/-- Whether `os.Create` succeeds does not depend on the bytes written later. -/
theorem storeFile_isSome (name : String) (d1 d2 : List Byte) (es : List DirEntry) :
    (storeFile name d1 es).isSome = (storeFile name d2 es).isSome := by
  induction es with
  | nil => simp [storeFile]
  | cons e es ih =>
    unfold storeFile
    by_cases hn : e.name = name
    · rw [if_pos hn, if_pos hn]
      cases e.node <;> simp
    · rw [if_neg hn, if_neg hn]
      by_cases hlt : name < e.name
      · rw [if_pos hlt, if_pos hlt]
        simp
      · rw [if_neg hlt, if_neg hlt]
        simpa using ih

/-- An upload above the limit. -/
theorem upload_too_large (fs : FS) (videoID filename : String) (content : List Byte)
    (h : 200 * 1000000 < content.length) :
    uploadVideoHandler fs videoID (UploadRequest.file filename content) =
      ((httpError ResponseWriter.new "Invalid file size. Only 10MB files are allowed."
        400).finish, fs) := by
  unfold uploadVideoHandler
  simp only [gt_iff_lt, if_pos h]

/-- An upload within the limit whose output file can be created. -/
theorem upload_stored (fs : FS) (videoID filename : String) (content : List Byte)
    (es1 : List DirEntry)
    (h : content.length ≤ 200 * 1000000)
    (hs : storeFile (videoID ++ filepathExt filename) content (entriesOf fs) = some es1) :
    uploadVideoHandler fs videoID (UploadRequest.file filename content) =
      ({ status := 201, header := [], body := [Chunk.video (Video.mk videoID filename "")] },
        some es1) := by
  have hcreate : (storeFile (videoID ++ filepathExt filename) [] (entriesOf fs)).isSome = true := by
    rw [storeFile_isSome _ [] content, hs]
    rfl
  obtain ⟨es0, h0⟩ := Option.isSome_iff_exists.mp hcreate
  unfold uploadVideoHandler
  simp only [gt_iff_lt, if_neg (not_lt.mpr h)]
  unfold entriesOf at h0 hs
  simp only [h0, copyLoop_eq _ content [] (Nat.lt_succ_self _), List.nil_append, hs]
  rfl

/-- An upload within the limit whose output file cannot be created. -/
theorem upload_create_fails (fs : FS) (videoID filename : String) (content : List Byte)
    (h : content.length ≤ 200 * 1000000)
    (hs : storeFile (videoID ++ filepathExt filename) content (entriesOf fs) = none) :
    uploadVideoHandler fs videoID (UploadRequest.file filename content) =
      ((httpError ResponseWriter.new "Error saving the file" 500).finish,
        some (entriesOf fs)) := by
  have hcreate : storeFile (videoID ++ filepathExt filename) [] (entriesOf fs) = none := by
    have := storeFile_isSome (videoID ++ filepathExt filename) [] content (entriesOf fs)
    rw [hs] at this
    simpa using this
  unfold uploadVideoHandler
  simp only [gt_iff_lt, if_neg (not_lt.mpr h)]
  unfold entriesOf at hcreate
  simp only [hcreate]
  rfl

/-- The handler on a stored regular file and a request without `Range`. -/
theorem stream_full_eq (maxOffset : Nat) (fs : FS) (filename : String) (data : List Byte)
    (hopen : osOpen fs filename = some (Node.file data)) :
    streamVideoHandler maxOffset fs filename "" =
      (some { status := 200, header := [("Content-Type", "video/mp4")],
              body := [Chunk.raw data] }, fs) := by
  unfold streamVideoHandler
  simp only [hopen]
  rfl

/-! ## Lemmas on the listing path -/

theorem lastDotSuffix_of_not_mem (s : List Char) (h : '.' ∉ s) : lastDotSuffix s = [] := by
  induction s with
  | nil => rfl
  | cons c cs ih =>
    have hc : c ≠ '.' := fun e => h (by simp [e])
    have hcs : '.' ∉ cs := fun m => h (List.mem_cons_of_mem _ m)
    rw [lastDotSuffix, ih hcs]
    simp [hc]

theorem lastDotSuffix_append (a b : List Char) (h : '.' ∉ b) :
    lastDotSuffix (a ++ '.' :: b) = '.' :: b := by
  induction a with
  | nil =>
    rw [List.nil_append, lastDotSuffix, lastDotSuffix_of_not_mem b h]
    simp
  | cons c cs ih =>
    rw [List.cons_append, lastDotSuffix, ih]

theorem last_dot_cases (s : List Char) :
    '.' ∉ s ∨ ∃ a b, s = a ++ '.' :: b ∧ '.' ∉ b := by
  induction s with
  | nil => left; simp
  | cons c cs ih =>
    rcases ih with h | ⟨a, b, he, hb⟩
    · by_cases hc : c = '.'
      · right
        exact ⟨[], cs, by simp [hc], h⟩
      · left
        intro hm
        rcases List.mem_cons.mp hm with e | e
        · exact hc e.symm
        · exact h e
    · right
      exact ⟨c :: a, b, by simp [he], hb⟩

theorem extScan_of_not_mem (r acc : List Char) (h : '.' ∉ r) : extScan r acc = [] := by
  induction r generalizing acc with
  | nil => rfl
  | cons c cs ih =>
    have hc : c ≠ '.' := fun e => h (by simp [e])
    have hcs : '.' ∉ cs := fun m => h (List.mem_cons_of_mem _ m)
    rw [extScan]
    by_cases hsl : c = '/'
    · rw [if_pos hsl]
    · rw [if_neg hsl, if_neg hc]
      exact ih _ hcs

theorem extScan_skip (r rest acc : List Char) (hd : '.' ∉ r) (hs : '/' ∉ r) :
    extScan (r ++ rest) acc = extScan rest (r.reverse ++ acc) := by
  induction r generalizing acc with
  | nil => rfl
  | cons c cs ih =>
    have hc : c ≠ '.' := fun e => hd (by simp [e])
    have hcs : '.' ∉ cs := fun m => hd (List.mem_cons_of_mem _ m)
    have hsl : c ≠ '/' := fun e => hs (by simp [e])
    have hss : '/' ∉ cs := fun m => hs (List.mem_cons_of_mem _ m)
    rw [List.cons_append, extScan, if_neg hsl, if_neg hc, ih _ hcs hss]
    simp

theorem extScan_slash (r rest acc : List Char) (hd : '.' ∉ r) (hs : '/' ∈ r) :
    extScan (r ++ rest) acc = [] := by
  induction r generalizing acc with
  | nil => simp at hs
  | cons c cs ih =>
    have hc : c ≠ '.' := fun e => hd (by simp [e])
    have hcs : '.' ∉ cs := fun m => hd (List.mem_cons_of_mem _ m)
    rw [List.cons_append, extScan]
    by_cases hsl : c = '/'
    · rw [if_pos hsl]
    · rw [if_neg hsl, if_neg hc]
      apply ih _ hcs
      rcases List.mem_cons.mp hs with e | e
      · exact absurd e.symm hsl
      · exact e

/-- `filepath.Ext` is the suffix from the last dot, except that it is empty
when a `/` follows that dot. -/
theorem filepathExt_cases (f : String) :
    filepathExt f = specExt f ∨ (filepathExt f = "" ∧ '/' ∈ (specExt f).toList) := by
  unfold filepathExt specExt
  rcases last_dot_cases f.toList with h | ⟨a, b, he, hb⟩
  · left
    rw [lastDotSuffix_of_not_mem _ h, extScan_of_not_mem _ _ (by simpa using h)]
  · rw [he, lastDotSuffix_append a b hb]
    have hrev : (a ++ '.' :: b).reverse = b.reverse ++ '.' :: a.reverse := by simp
    rw [hrev]
    by_cases hs : '/' ∈ b
    · right
      constructor
      · rw [extScan_slash _ _ _ (by simpa using hb) (by simpa using hs)]
      · exact List.mem_cons_of_mem _ hs
    · left
      rw [extScan_skip _ _ _ (by simpa using hb) (by simpa using hs), extScan]
      simp

theorem isVideoFileType_iff_ext (table : Char → Char) (f : String) :
    isVideoFileType table f = true ↔
      stringsToLower table (filepathExt f) ∈ [".mp4", ".avi"] := by
  unfold isVideoFileType
  simp

theorem lower_slash_mem (table : Char → Char) (s : String) (h : '/' ∈ s.toList) :
    '/' ∈ (stringsToLower table s).toList := by
  unfold stringsToLower
  show '/' ∈ s.toList.map (lowerRune table)
  have hl : lowerRune table '/' = '/' := by
    unfold lowerRune
    rw [if_pos (by decide)]
    decide
  exact List.mem_map.mpr ⟨'/', h, hl⟩

/-- Source and specification agree on what a video file name is. -/
theorem isVideoFileType_iff_spec (table : Char → Char) (f : String) :
    isVideoFileType table f = true ↔
      stringsToLower table (specExt f) ∈ [".mp4", ".avi"] := by
  rw [isVideoFileType_iff_ext]
  rcases filepathExt_cases f with h | ⟨h0, hs⟩
  · rw [h]
  · rw [h0]
    have hl := lower_slash_mem table _ hs
    constructor
    · intro hm
      have e : stringsToLower table "" = "" := rfl
      rw [e] at hm
      exact absurd hm (by decide)
    · intro hm
      exfalso
      simp only [List.mem_cons, List.mem_singleton, List.not_mem_nil, or_false] at hm
      rcases hm with e | e <;> rw [e] at hl <;> revert hl <;> decide

theorem listVideos_fold (table : Char → Char) (ids : Nat → String) (files : List DirEntry)
    (acc : List Video) :
    (files.foldl
      (fun videos file =>
        if !file.isDir && isVideoFileType table file.name then
          videos ++ [Video.mk (ids videos.length) file.name
            ("http://localhost:8080/videos/" ++ file.name)]
        else videos)
      acc).map (fun v => (v.Name, v.URL)) =
      acc.map (fun v => (v.Name, v.URL)) ++
        (files.filter (specIsVideo table)).map
          (fun e => (e.name, "http://localhost:8080/videos/" ++ e.name)) := by
  induction files generalizing acc with
  | nil => simp
  | cons e es ih =>
    have hiff : (!e.isDir && isVideoFileType table e.name) = specIsVideo table e := by
      unfold specIsVideo
      congr 1
      rw [Bool.eq_iff_iff, isVideoFileType_iff_spec]
      simp
    rw [List.foldl_cons, ih, hiff]
    cases hv : specIsVideo table e <;> simp [hv]

/-! ## Small facts used by the claims -/

theorem headerGet_contentRange (v : String) :
    headerGet (rangeHeaders v) "Content-Range" = some v := rfl

theorem headerGet_acceptRanges (v : String) :
    headerGet (rangeHeaders v) "Accept-Ranges" = some "bytes" := rfl

theorem headerGet_contentLength (v : String) :
    headerGet (rangeHeaders v) "Content-Length" = none := rfl

theorem httpError_status (msg : String) (code : Nat) :
    (httpError ResponseWriter.new msg code).finish.status = code := rfl

theorem byteSlice_to_end (data : List Byte) (s : Nat) (h : s < data.length) :
    byteSlice data s (data.length - 1) = data.drop s := by
  unfold byteSlice
  apply List.take_of_length_le
  rw [List.length_drop]
  omega

theorem osOpen_stored (name : String) (data : List Byte) (es es1 : List DirEntry)
    (h : storeFile name data es = some es1) :
    osOpen (some es1) name = some (Node.file data) :=
  storeFile_find name data es es1 h

/-! ## The claims -/

/-- C1, the code at the failing input: for the 1000-byte file and
`Range: bytes=500-699` the handler answers 206 with
`Content-Range: bytes 500-699/1000`, but the body is everything from offset 500
to the end of the file, 500 bytes, and not the 200 bytes `[500, 699]`; this is
so on every filesystem. -/
theorem c1_body_runs_to_end_of_file (maxOffset : Nat) :
    streamVideoHandler maxOffset fs1000 "a.mp4" "bytes=500-699" =
      (some { status := 206, header := rangeHeaders "bytes 500-699/1000",
              body := [Chunk.raw (file1000.drop 500)] }, fs1000) ∧
    (file1000.drop 500).length = 500 ∧
    (byteSlice file1000 500 699).length = 200 ∧
    file1000.drop 500 ≠ byteSlice file1000 500 699 := by
  have hlen : file1000.length = 1000 := by simp [file1000]
  have h1 : (file1000.drop 500).length = 500 := by
    rw [List.length_drop, hlen]
  have h2 : (byteSlice file1000 500 699).length = 200 := by
    unfold byteSlice
    rw [List.length_take, h1]
    rfl
  refine ⟨?_, h1, h2, ?_⟩
  · have h := stream_closed_range_inside maxOffset fs1000 "a.mp4" file1000 500 699 rfl
      (by rw [hlen]; norm_num) (by rw [hlen]; norm_num) (by norm_num)
    rw [hlen] at h
    exact h
  · intro e
    rw [e, h2] at h1
    exact absurd h1 (by decide)

/-- C2, counterexample: on the ten-byte file, on ext4, `Range: bytes=20-30`
(start beyond the end of the file), `Range: bytes=7-3` (start after end) and
`Range: bytes=17592186040321-17592186040330` (start beyond the largest offset
of the filesystem, so that the seek fails) are answered with status 206 and a
`Content-Range` that repeats the request, not with 416 and `bytes */10`; the
second one also carries bytes of the file. -/
theorem c2_unsatisfiable_range_gets_206 :
    streamVideoHandler ext4MaxOffset sampleFS "a.mp4" "bytes=20-30" =
      (some { status := 206, header := rangeHeaders "bytes 20-30/10",
              body := [Chunk.raw []] }, sampleFS) ∧
    streamVideoHandler ext4MaxOffset sampleFS "a.mp4" "bytes=7-3" =
      (some { status := 206, header := rangeHeaders "bytes 7-3/10",
              body := [Chunk.raw [17, 18, 19]] }, sampleFS) ∧
    streamVideoHandler ext4MaxOffset sampleFS "a.mp4"
        "bytes=17592186040321-17592186040330" =
      (some { status := 206,
              header := rangeHeaders "bytes 17592186040321-17592186040330/10",
              body := [Chunk.line "Error seeking video file"] }, sampleFS) ∧
    ¬ ∃ r, (streamVideoHandler ext4MaxOffset sampleFS "a.mp4" "bytes=20-30").1 = some r ∧
      r.status = 416 ∧ headerGet r.header "Content-Range" = some "bytes */10" := by
  refine ⟨by decide, by decide, by decide, ?_⟩
  rintro ⟨r, hr, hst, _⟩
  have h : (streamVideoHandler ext4MaxOffset sampleFS "a.mp4" "bytes=20-30").1 =
      some { status := 206, header := rangeHeaders "bytes 20-30/10",
             body := [Chunk.raw []] } := by decide
  rw [h] at hr
  cases hr
  exact absurd hst (by decide)

/-- C2, amended: for a stored file of size total and `Range: bytes=<s>-<e>`
with `s >= total` or `s > e` (both numbers in the `int64` range) the handler
answers with status 206 and `Content-Range: bytes <s>-<e>/<total>`; there is no
416 response.  When `s >= total` no byte of the file is written: the body is
empty, or, when `s` is also above the largest offset of the filesystem and the
seek fails, it is the line `Error seeking video file`. -/
theorem c2_unsatisfiable_range_response (maxOffset : Nat) (fs : FS) (filename : String)
    (data : List Byte) (s e : Nat)
    (hopen : osOpen fs filename = some (Node.file data))
    (hs : s < 2 ^ 63) (he : e < 2 ^ 63)
    (_hbad : data.length ≤ s ∨ e < s) :
    ∃ r, streamVideoHandler maxOffset fs filename
        ("bytes=" ++ toString s ++ "-" ++ toString e) = (some r, fs) ∧
      r.status = 206 ∧
      headerGet r.header "Content-Range" =
        some ("bytes " ++ toString s ++ "-" ++ toString e ++ "/" ++ toString data.length) ∧
      (data.length ≤ s →
        r.body = if maxOffset < s ∧ data.length < s
          then [Chunk.line "Error seeking video file"] else [Chunk.raw []]) := by
  refine ⟨_, stream_closed_range maxOffset fs filename data s e hopen hs he, rfl,
    headerGet_contentRange _, ?_⟩
  intro hle
  show (if seekFails maxOffset (data.length : Int) (s : Int) = true then
      [Chunk.line "Error seeking video file"] else [Chunk.raw (data.drop s)]) = _
  by_cases hgt : maxOffset < s ∧ data.length < s
  · rw [if_pos hgt, seekFails_of_gt maxOffset _ _ (by omega), if_pos rfl]
  · rw [if_neg hgt, seekFails_of_le maxOffset _ _ (by omega) (by omega),
      List.drop_eq_nil_of_le hle]
    rfl

/-- C2, witness: the amended statement on the ten-byte file, on ext4, and
`Range: bytes=20-30`. -/
theorem c2_unsatisfiable_range_witness :
    ∃ r, streamVideoHandler ext4MaxOffset sampleFS "a.mp4"
        ("bytes=" ++ toString 20 ++ "-" ++ toString 30) = (some r, sampleFS) ∧
      r.status = 206 ∧
      headerGet r.header "Content-Range" =
        some ("bytes " ++ toString 20 ++ "-" ++ toString 30 ++ "/" ++
          toString sampleData.length) ∧
      (sampleData.length ≤ 20 →
        r.body = if ext4MaxOffset < 20 ∧ sampleData.length < 20
          then [Chunk.line "Error seeking video file"] else [Chunk.raw []]) :=
  c2_unsatisfiable_range_response ext4MaxOffset sampleFS "a.mp4" sampleData 20 30 (by decide)
    (by norm_num) (by norm_num) (Or.inl (by decide))

/-- C3: for a stored file, a request without a Range header is answered with
status 200, no `Content-Range` header and the whole file as body; the storage
is unchanged, and the same request on the resulting storage gives the same
response. -/
theorem c3_full_file_response (maxOffset : Nat) (fs : FS) (filename : String)
    (data : List Byte)
    (hopen : osOpen fs filename = some (Node.file data)) :
    ∃ r, streamVideoHandler maxOffset fs filename "" = (some r, fs) ∧
      r.status = 200 ∧
      headerGet r.header "Content-Range" = none ∧
      r.body = [Chunk.raw data] ∧
      streamVideoHandler maxOffset (streamVideoHandler maxOffset fs filename "").2 filename "" =
        (some r, fs) := by
  have h := stream_full_eq maxOffset fs filename data hopen
  refine ⟨_, h, rfl, rfl, rfl, ?_⟩
  rw [h]
  exact h

/-- C3, witness: the ten-byte file served in full. -/
theorem c3_full_file_witness :
    ∃ r, streamVideoHandler ext4MaxOffset sampleFS "a.mp4" "" = (some r, sampleFS) ∧
      r.status = 200 ∧
      headerGet r.header "Content-Range" = none ∧
      r.body = [Chunk.raw sampleData] ∧
      streamVideoHandler ext4MaxOffset
        (streamVideoHandler ext4MaxOffset sampleFS "a.mp4" "").2 "a.mp4" "" =
        (some r, sampleFS) :=
  c3_full_file_response ext4MaxOffset sampleFS "a.mp4" sampleData (by decide)

/-- C4, counterexample: on the ten-byte file and `Range: bytes=2-5` the
response has status 206 but no `Content-Length` header, so not
`Content-Length: 4`. -/
theorem c4_no_content_length :
    ∃ r, streamVideoHandler ext4MaxOffset sampleFS "a.mp4" "bytes=2-5" = (some r, sampleFS) ∧
      r.status = 206 ∧
      headerGet r.header "Content-Length" = none ∧
      headerGet r.header "Content-Length" ≠ some "4" :=
  ⟨{ status := 206, header := rangeHeaders "bytes 2-5/10",
     body := [Chunk.raw [12, 13, 14, 15, 16, 17, 18, 19]] },
    by decide, by decide, by decide, by decide⟩

/-- C4, amended: for a stored file of size total and `Range: bytes=<s>-<e>`
with `0 <= s <= e < total` the response has status 206 and carries
`Accept-Ranges: bytes` and `Content-Range: bytes <s>-<e>/<total>`; the handler
sets no `Content-Length` header. -/
theorem c4_partial_response_headers (maxOffset : Nat) (fs : FS) (filename : String)
    (data : List Byte) (s e : Nat)
    (hopen : osOpen fs filename = some (Node.file data))
    (hsize : data.length < 2 ^ 63)
    (hse : s ≤ e) (het : e < data.length) :
    ∃ r, streamVideoHandler maxOffset fs filename
        ("bytes=" ++ toString s ++ "-" ++ toString e) = (some r, fs) ∧
      r.status = 206 ∧
      headerGet r.header "Accept-Ranges" = some "bytes" ∧
      headerGet r.header "Content-Range" =
        some ("bytes " ++ toString s ++ "-" ++ toString e ++ "/" ++ toString data.length) ∧
      headerGet r.header "Content-Length" = none :=
  ⟨_, stream_closed_range maxOffset fs filename data s e hopen (by omega) (by omega), rfl,
    headerGet_acceptRanges _, headerGet_contentRange _, headerGet_contentLength _⟩

/-- C4, witness: the amended statement on the ten-byte file and
`Range: bytes=2-5`. -/
theorem c4_partial_response_witness :
    ∃ r, streamVideoHandler ext4MaxOffset sampleFS "a.mp4"
        ("bytes=" ++ toString 2 ++ "-" ++ toString 5) = (some r, sampleFS) ∧
      r.status = 206 ∧
      headerGet r.header "Accept-Ranges" = some "bytes" ∧
      headerGet r.header "Content-Range" =
        some ("bytes " ++ toString 2 ++ "-" ++ toString 5 ++ "/" ++
          toString sampleData.length) ∧
      headerGet r.header "Content-Length" = none :=
  c4_partial_response_headers ext4MaxOffset sampleFS "a.mp4" sampleData 2 5 (by decide)
    (by decide) (by decide) (by decide)

/-- C5, counterexample: on the ten-byte file the multi-range header
`bytes=0-10,20-30` and the headers `bytes=-500` and `bytes=abc-10`, whose start
does not parse, are all answered with status 206 and the file from offset 0 as
body; none gets 416. -/
theorem c5_malformed_range_gets_206 :
    streamVideoHandler ext4MaxOffset sampleFS "a.mp4" "bytes=0-10,20-30" =
      (some { status := 206, header := rangeHeaders "bytes 0-0/10",
              body := [Chunk.raw sampleData] }, sampleFS) ∧
    streamVideoHandler ext4MaxOffset sampleFS "a.mp4" "bytes=-500" =
      (some { status := 206, header := rangeHeaders "bytes 0-500/10",
              body := [Chunk.raw sampleData] }, sampleFS) ∧
    streamVideoHandler ext4MaxOffset sampleFS "a.mp4" "bytes=abc-10" =
      (some { status := 206, header := rangeHeaders "bytes 0-10/10",
              body := [Chunk.raw sampleData] }, sampleFS) ∧
    ¬ ∃ r, (streamVideoHandler ext4MaxOffset sampleFS "a.mp4" "bytes=0-10,20-30").1 = some r ∧
      r.status = 416 := by
  refine ⟨by decide, by decide, by decide, ?_⟩
  rintro ⟨r, hr, hst⟩
  have h : (streamVideoHandler ext4MaxOffset sampleFS "a.mp4" "bytes=0-10,20-30").1 =
      some { status := 206, header := rangeHeaders "bytes 0-0/10",
             body := [Chunk.raw sampleData] } := by decide
  rw [h] at hr
  cases hr
  exact absurd hst (by decide)

/-- C5, amended: for a stored file and every non-empty Range header, well
formed or not, that has a second piece `rv` when split on `=` and whose `rv`
has at least two pieces `p0`, `p1` when split on `-`, the handler answers with
status 206, never 416, and with `Content-Range: bytes <s>-<e>/<total>`, where
`s` is `ParseInt(p0)` and `e` is `ParseInt(p1)`, or `total - 1` for an empty
`p1`, both with the parse error ignored. -/
theorem c5_delimited_range_gets_206 (maxOffset : Nat) (fs : FS)
    (filename h rv p0 p1 : String) (rest : List String) (data : List Byte)
    (hopen : osOpen fs filename = some (Node.file data))
    (hh : h ≠ "")
    (hrv : (stringsSplit h '=').get? 1 = some rv)
    (hbr : stringsSplit rv '-' = p0 :: p1 :: rest) :
    ∃ r, streamVideoHandler maxOffset fs filename h = (some r, fs) ∧
      r.status = 206 ∧ r.status ≠ 416 ∧
      headerGet r.header "Content-Range" =
        some ("bytes " ++ formatInt (parseInt p0).1 ++ "-" ++
          formatInt (if p1 ≠ "" then (parseInt p1).1 else (data.length : Int) - 1) ++
          "/" ++ formatInt (data.length : Int)) :=
  ⟨_, stream_range_eq maxOffset fs filename h rv p0 p1 rest data hopen hh hrv hbr, rfl,
    show (206 : Nat) ≠ 416 by decide, headerGet_contentRange _⟩

/-- C5, witness: the amended statement on the ten-byte file and the multi-range
header `bytes=0-10,20-30`. -/
theorem c5_delimited_range_witness :
    ∃ r, streamVideoHandler ext4MaxOffset sampleFS "a.mp4" "bytes=0-10,20-30" =
        (some r, sampleFS) ∧
      r.status = 206 ∧ r.status ≠ 416 ∧
      headerGet r.header "Content-Range" =
        some ("bytes " ++ formatInt (parseInt "0").1 ++ "-" ++
          formatInt (if "10,20" ≠ "" then (parseInt "10,20").1
            else (sampleData.length : Int) - 1) ++
          "/" ++ formatInt (sampleData.length : Int)) :=
  c5_delimited_range_gets_206 ext4MaxOffset sampleFS "a.mp4" "bytes=0-10,20-30" "0-10,20-30"
    "0" "10,20" ["30"] sampleData (by decide) (by decide) (by decide) (by decide)

/-- C6: for a stored file of size total (an `int64`, at least 1) and the
open-ended header `bytes=<s>-` with `0 <= s < total`, the handler takes
`total - 1` as end, answers with status 206 and
`Content-Range: bytes <s>-<total-1>/<total>`, and writes exactly the
`total - s` bytes `[s, total - 1]` of the file. -/
theorem c6_open_ended_range (maxOffset : Nat) (fs : FS) (filename : String)
    (data : List Byte) (s : Nat)
    (hopen : osOpen fs filename = some (Node.file data))
    (hsize : data.length < 2 ^ 63)
    (hs : s < data.length) :
    ∃ r, streamVideoHandler maxOffset fs filename ("bytes=" ++ toString s ++ "-") =
        (some r, fs) ∧
      r.status = 206 ∧
      headerGet r.header "Content-Range" =
        some ("bytes " ++ toString s ++ "-" ++ toString (data.length - 1) ++ "/" ++
          toString data.length) ∧
      r.body = [Chunk.raw (byteSlice data s (data.length - 1))] ∧
      (byteSlice data s (data.length - 1)).length = data.length - s := by
  have hb := byteSlice_to_end data s hs
  refine ⟨_, stream_open_range maxOffset fs filename data s hopen (by omega) hsize
    (by omega), rfl, headerGet_contentRange _, ?_, ?_⟩
  · rw [hb]
  · rw [hb, List.length_drop]

/-- C6, witness: `Range: bytes=999-` on the 1000-byte file gives the single
byte at offset 999. -/
theorem c6_open_ended_witness :
    ∃ r, streamVideoHandler ext4MaxOffset fs1000 "a.mp4" ("bytes=" ++ toString 999 ++ "-") =
        (some r, fs1000) ∧
      r.status = 206 ∧
      headerGet r.header "Content-Range" =
        some ("bytes " ++ toString 999 ++ "-" ++ toString (file1000.length - 1) ++ "/" ++
          toString file1000.length) ∧
      r.body = [Chunk.raw (byteSlice file1000 999 (file1000.length - 1))] ∧
      (byteSlice file1000 999 (file1000.length - 1)).length = file1000.length - 999 :=
  c6_open_ended_range ext4MaxOffset fs1000 "a.mp4" file1000 999 rfl (by simp [file1000])
    (by simp [file1000])

/-- C10, the code at the failing inputs: with a Range header that has no `=`
(`bytes`) the handler indexes element 1 of a one-element slice, and with one
that has no `-` after the `=` (`bytes=5`) it indexes element 1 of the second
split; both are panics and no response is written, on every filesystem. -/
theorem c10_range_without_delimiter_panics (maxOffset : Nat) :
    streamVideoHandler maxOffset sampleFS "a.mp4" "bytes" = (none, sampleFS) ∧
    streamVideoHandler maxOffset sampleFS "a.mp4" "bytes=5" = (none, sampleFS) ∧
    stringsSplit "bytes" '=' = ["bytes"] ∧
    stringsSplit "5" '-' = ["5"] :=
  ⟨rfl, rfl, by decide, by decide⟩

/-- C7, counterexample: uploading `movie.mp4` with content `1, 2, 3` into an
empty storage is accepted with status 201 and the identifier in the `id` field;
the file is stored under identifier plus `.mp4`, and a request without Range
header for the identifier alone is answered 404. -/
theorem c7_stream_by_id_not_found :
    uploadVideoHandler (some []) sampleID (UploadRequest.file "movie.mp4" [1, 2, 3]) =
      ({ status := 201, header := [],
         body := [Chunk.video (Video.mk sampleID "movie.mp4" "")] },
        some [DirEntry.mk (sampleID ++ ".mp4") (Node.file [1, 2, 3])]) ∧
    (streamVideoHandler ext4MaxOffset
      (some [DirEntry.mk (sampleID ++ ".mp4") (Node.file [1, 2, 3])])
      sampleID "").1.map Response.status = some 404 := by
  decide

/-- C7, amended: for every upload that `uploadVideoHandler` accepts (status
201) with content `c` and original filename `f`, the response carries the
generated identifier in its `id` field, and a following request without Range
header for the name made of that identifier followed by the extension of `f`
is answered with status 200 and a body equal to `c`. -/
theorem c7_upload_then_stream_stored_name (maxOffset : Nat) (fs : FS) (videoID f : String)
    (c : List Byte)
    (hacc : (uploadVideoHandler fs videoID (UploadRequest.file f c)).1.status = 201) :
    (uploadVideoHandler fs videoID (UploadRequest.file f c)).1.body =
      [Chunk.video (Video.mk videoID f "")] ∧
    ∃ r, streamVideoHandler maxOffset
        (uploadVideoHandler fs videoID (UploadRequest.file f c)).2
        (videoID ++ filepathExt f) "" =
        (some r, (uploadVideoHandler fs videoID (UploadRequest.file f c)).2) ∧
      r.status = 200 ∧ r.body = [Chunk.raw c] := by
  by_cases hsize : 200 * 1000000 < c.length
  · rw [upload_too_large fs videoID f c hsize] at hacc
    exact absurd (hacc.symm.trans (httpError_status _ 400)) (by decide)
  · have hle : c.length ≤ 200 * 1000000 := not_lt.mp hsize
    cases hst : storeFile (videoID ++ filepathExt f) c (entriesOf fs) with
    | none =>
      rw [upload_create_fails fs videoID f c hle hst] at hacc
      exact absurd (hacc.symm.trans (httpError_status _ 500)) (by decide)
    | some es1 =>
      rw [upload_stored fs videoID f c es1 hle hst]
      exact ⟨rfl, _, stream_full_eq maxOffset _ _ c (osOpen_stored _ c _ es1 hst), rfl, rfl⟩

/-- C7, witness: the amended statement for the upload of `movie.mp4` with
content `1, 2, 3` into an empty storage. -/
theorem c7_upload_then_stream_witness :
    (uploadVideoHandler (some []) sampleID (UploadRequest.file "movie.mp4" [1, 2, 3])).1.body =
      [Chunk.video (Video.mk sampleID "movie.mp4" "")] ∧
    ∃ r, streamVideoHandler ext4MaxOffset
        (uploadVideoHandler (some []) sampleID (UploadRequest.file "movie.mp4" [1, 2, 3])).2
        (sampleID ++ filepathExt "movie.mp4") "" =
        (some r,
          (uploadVideoHandler (some []) sampleID (UploadRequest.file "movie.mp4" [1, 2, 3])).2) ∧
      r.status = 200 ∧ r.body = [Chunk.raw [1, 2, 3]] :=
  c7_upload_then_stream_stored_name ext4MaxOffset (some []) sampleID "movie.mp4" [1, 2, 3]
    (by decide)

/-- C8, counterexample: an upload of exactly 200,000,000 bytes into an empty
storage is answered with status 201, not 400, and the file is created. -/
theorem c8_upload_at_limit_accepted :
    fileAtLimit.length = 200000000 ∧
    uploadVideoHandler (some []) sampleID (UploadRequest.file "a.mp4" fileAtLimit) =
      ({ status := 201, header := [],
         body := [Chunk.video (Video.mk sampleID "a.mp4" "")] },
        some [DirEntry.mk (sampleID ++ filepathExt "a.mp4") (Node.file fileAtLimit)]) ∧
    (uploadVideoHandler (some []) sampleID (UploadRequest.file "a.mp4" fileAtLimit)).1.status
      ≠ 400 ∧
    (uploadVideoHandler (some []) sampleID (UploadRequest.file "a.mp4" fileAtLimit)).2
      ≠ some [] := by
  have hlen : fileAtLimit.length = 200000000 := List.length_replicate _ _
  have hle : fileAtLimit.length ≤ 200 * 1000000 := by
    rw [hlen]
  have h := upload_stored (some []) sampleID "a.mp4" fileAtLimit
    [DirEntry.mk (sampleID ++ filepathExt "a.mp4") (Node.file fileAtLimit)] hle rfl
  refine ⟨hlen, h, ?_, ?_⟩
  · rw [h]
    exact (by decide : (201 : Nat) ≠ 400)
  · rw [h]
    intro e
    exact absurd (Option.some.inj e) (List.cons_ne_nil _ _)

/-- C8, amended: an upload of more than 200,000,000 bytes is answered with
status 400 and leaves the storage as it was; an upload of at most 200,000,000
bytes is not answered with 400. -/
theorem c8_upload_size_limit (fs : FS) (videoID f : String) (c : List Byte) :
    (200000000 < c.length →
      (uploadVideoHandler fs videoID (UploadRequest.file f c)).1.status = 400 ∧
      (uploadVideoHandler fs videoID (UploadRequest.file f c)).2 = fs) ∧
    (c.length ≤ 200000000 →
      (uploadVideoHandler fs videoID (UploadRequest.file f c)).1.status ≠ 400) := by
  constructor
  · intro h
    rw [upload_too_large fs videoID f c h]
    exact ⟨rfl, rfl⟩
  · intro h
    cases hst : storeFile (videoID ++ filepathExt f) c (entriesOf fs) with
    | none =>
      rw [upload_create_fails fs videoID f c h hst]
      intro e
      exact absurd ((httpError_status _ 500).symm.trans e) (by decide)
    | some es1 =>
      rw [upload_stored fs videoID f c es1 h hst]
      exact (by decide : (201 : Nat) ≠ 400)

/-- C8, witness: the amended statement at an upload of 200,000,001 bytes, which
is rejected without a change of the storage. -/
theorem c8_upload_size_limit_witness :
    200000000 < fileOverLimit.length ∧
    (uploadVideoHandler sampleFS sampleID (UploadRequest.file "a.mp4" fileOverLimit)).1.status
      = 400 ∧
    (uploadVideoHandler sampleFS sampleID (UploadRequest.file "a.mp4" fileOverLimit)).2
      = sampleFS :=
  have hlen : 200000000 < fileOverLimit.length := by
    have e : fileOverLimit.length = 200000001 := List.length_replicate _ _
    rw [e]
    decide
  ⟨hlen, (c8_upload_size_limit sampleFS sampleID "a.mp4" fileOverLimit).1 hlen⟩

/-- C9: for every list of directory entries the listing handler answers 200
with one record per entry that is no directory and whose extension, the suffix
from the last dot, lower-cased, is `.mp4` or `.avi`; the records come in
directory order, with the entry's filename as name and
`http://localhost:8080/videos/` followed by the filename as url, and no other
entry gives a record.  `isVideoFileType f` holds exactly when the lower-cased
extension of `f` is `.mp4` or `.avi`. -/
theorem c9_listing_and_video_type (table : Char → Char) (ids : Nat → String)
    (entries : List DirEntry) :
    getAllVideosMetadataHandler table ids (some entries) =
      ({ status := 200, header := [("Content-Type", "application/json")],
         body := [Chunk.videos (listVideos table ids entries)] }, some entries) ∧
    (listVideos table ids entries).map (fun v => (v.Name, v.URL)) =
      (entries.filter
        (fun e => !e.isDir &&
          decide (stringsToLower table (specExt e.name) ∈ [".mp4", ".avi"]))).map
        (fun e => (e.name, "http://localhost:8080/videos/" ++ e.name)) ∧
    ∀ f, isVideoFileType table f = true ↔
      stringsToLower table (specExt f) ∈ [".mp4", ".avi"] := by
  refine ⟨rfl, ?_, isVideoFileType_iff_spec table⟩
  have h := listVideos_fold table ids entries []
  rw [List.map_nil, List.nil_append] at h
  exact h

end StreamingApp
